import Mathlib

/-!
Verification of the Conway Game-of-Life grid engine (src/gol.h, src/gol.c).

The C code manipulates a `struct gameoflife { gol_pos rows, cols; bool *board; }`
whose `board` is a heap allocation of `rows * cols` booleans in row-major order
(index `y * cols + x`).  We embed the program shallowly:

* the C heap is modelled by `Heap`: a bump allocator mapping addresses (`Nat`)
  to allocated blocks of booleans.  `malloc`/`calloc` are modelled as always
  succeeding (`GOL_ERR_NOMEM` paths are environment failures outside the
  model; the claims below are about the success paths and the
  `GOL_ERR_INIT` paths, both of which the model captures exactly);
* `gol_pos` (C `short int`) and the intermediate `int` arithmetic are
  modelled by `Int`.  All positions reachable in the claims keep every
  intermediate value far inside the 16-bit range, so no wrap-around from the
  C integer conversions is observable (for `x + dx` with `x` within the
  `short` range and dimensions that fit in `gol_pos`, the bounds test in
  `gol_countlive` rejects the offset position in both the wrapped and the
  unwrapped reading);
* each C function taking `struct gameoflife *` becomes a Lean function taking
  the struct value and the heap, returning its error code together with the
  updated struct/heap;
* a read through a NULL board pointer is undefined behaviour in C
  (`gol_tick` reaches one, at src/gol.c line 146, only on a storage-less
  grid with both dimensions positive).  `boardLoad` returns `false` on that
  branch purely so the loop bodies stay total; no theorem below asserts any
  program behaviour on a path that performs such a read.
-/

/-- Error code `GOL_ERR_OK` from src/gol.h. -/
def GOL_ERR_OK : Nat := 0

/-- Error code `GOL_ERR_INIT` from src/gol.h. -/
def GOL_ERR_INIT : Nat := 1

/-- Error code `GOL_ERR_NOMEM` from src/gol.h. -/
def GOL_ERR_NOMEM : Nat := 2

/-- The C heap restricted to what the program allocates: blocks of booleans.
`mem a` is the content of the block at address `a` (`none` = unallocated),
`next` is the next fresh address of the bump allocator. -/
structure Heap where
  mem : Nat → Option (List Bool)
  next : Nat

/-- Model of `malloc`/`calloc`: returns a fresh address holding `data`. -/
def Heap.alloc (h : Heap) (data : List Bool) : Nat × Heap :=
  (h.next, ⟨fun b => if b = h.next then some data else h.mem b, h.next + 1⟩)

/-- Model of `free`. -/
def Heap.dealloc (h : Heap) (a : Nat) : Heap :=
  ⟨fun b => if b = a then none else h.mem b, h.next⟩

/-- Read `board[i]` at block `a` (out-of-model reads default to `false`). -/
def Heap.load (h : Heap) (a : Nat) (i : Nat) : Bool :=
  (((h.mem a).getD []).getD i false)

/-- Write `board[i] = v` at block `a`. -/
def Heap.store (h : Heap) (a : Nat) (i : Nat) (v : Bool) : Heap :=
  ⟨fun b => if b = a then (h.mem a).map (fun l => l.set i v) else h.mem b, h.next⟩

/-- A heap is well formed when no address at or beyond the allocation
frontier is allocated; this is exactly what makes `Heap.alloc` fresh. -/
def Heap.wf (h : Heap) : Prop := ∀ b, h.next ≤ b → h.mem b = none

/-- The completely empty heap. -/
def emptyHeap : Heap := ⟨fun _ => none, 0⟩

/-- `struct gameoflife` from src/gol.h: dimensions (`gol_pos`, modelled as
`Int`) and the board pointer (`none` = NULL). -/
structure gameoflife where
  rows : Int
  cols : Int
  board : Option Nat
deriving DecidableEq

/-- Read of `game->board[i]`.  A read through a NULL board is undefined
behaviour in C; the `false` result on that branch only keeps the function
total, and no theorem in this development relies on it: every statement
about an execution that would reach this branch is confined to inputs on
which the branch is never taken. -/
def boardLoad (h : Heap) (g : gameoflife) (i : Nat) : Bool :=
  match g.board with
  | none => false
  | some a => h.load a i

/-- Write of `game->board[i] = v`; a NULL board write is a no-op in the model. -/
def boardStore (h : Heap) (g : gameoflife) (i : Nat) (v : Bool) : Heap :=
  match g.board with
  | none => h
  | some a => h.store a i v

/-- `gol_2dto1d` (src/gol.c line 9): row-major index `(y * cols) + x`. -/
def gol_2dto1d (game : gameoflife) (x y : Int) : Int :=
  y * game.cols + x

/-- The table `neighbors` of the 8 relative Moore offsets
(src/gol.c lines 18-27), in source order. -/
def neighbors : List (Int × Int) :=
  [(-1, -1), (-1, 0), (-1, 1), (0, -1), (0, 1), (1, -1), (1, 0), (1, 1)]

/-- `gol_countlive` (src/gol.c lines 16-47): errors with `GOL_ERR_INIT` on a
NULL board, otherwise folds over the 8 offsets, skipping any offset position
outside `[0, cols) × [0, rows)` and adding the boolean cell value
(`n += board[...]`) for in-bounds positions. -/
def gol_countlive (h : Heap) (game : gameoflife) (x y : Int) : Except Nat Int :=
  match game.board with
  | none => Except.error GOL_ERR_INIT
  | some a =>
    Except.ok (List.foldl (fun n d =>
      let nx := x + d.1
      let ny := y + d.2
      if nx < 0 ∨ game.cols ≤ nx ∨ ny < 0 ∨ game.rows ≤ ny then n
      else n + (cond (h.load a (gol_2dto1d game nx ny).toNat) 1 0)) 0 neighbors)

/-- `gol_init` (src/gol.c lines 52-65): `calloc`s a zeroed board of
`(size_t)rows * cols` cells and sets the three struct fields.  (The model's
allocation always succeeds; the `toNat` rendering of the size matches the C
`size_t` product for the nonnegative dimensions the claims quantify over.) -/
def gol_init (h : Heap) (rows cols : Int) : Nat × gameoflife × Heap :=
  let sz := (rows * cols).toNat
  let r := h.alloc (List.replicate sz false)
  (GOL_ERR_OK, ⟨rows, cols, some r.1⟩, r.2)

/-- `gol_free` (src/gol.c lines 70-78): frees the board if non-NULL, then
zeroes the whole struct (`memset`), and always returns `GOL_ERR_OK`. -/
def gol_free (h : Heap) (game : gameoflife) : Nat × gameoflife × Heap :=
  let h' := match game.board with
    | some a => h.dealloc a
    | none => h
  (GOL_ERR_OK, ⟨0, 0, none⟩, h')

/-- `gol_copy` (src/gol.c lines 83-98): `memcpy`s the struct (so the copy
inherits `rows`, `cols`, and for a NULL source board also the NULL pointer),
then, when the source board is non-NULL, allocates a fresh block and
`memcpy`s `(size_t)src->cols * src->rows` cells into it.  The `List.take`
renders the exact byte count of that `memcpy`; for a well-formed grid the
block has exactly that length, so the whole board is copied. -/
def gol_copy (h : Heap) (src : gameoflife) : Nat × gameoflife × Heap :=
  match src.board with
  | none => (GOL_ERR_OK, ⟨src.rows, src.cols, none⟩, h)
  | some a =>
    let board_len := (src.cols * src.rows).toNat
    let r := h.alloc (((h.mem a).getD []).take board_len)
    (GOL_ERR_OK, ⟨src.rows, src.cols, some r.1⟩, r.2)

/-- `gol_populate` (src/gol.c lines 102-114): errors with `GOL_ERR_INIT` on a
NULL board, otherwise stores a random boolean at every position in raster
order.  The ambient `rand()` stream is injected as `rnd`, indexed by the
number of preceding calls (cell `(x, y)` is the `(y * cols + x)`-th call). -/
def gol_populate (h : Heap) (game : gameoflife) (rnd : Nat → Bool) : Nat × Heap :=
  match game.board with
  | none => (GOL_ERR_INIT, h)
  | some a =>
    let h' := List.foldl (fun hy y =>
      List.foldl (fun hx x =>
        hx.store a (gol_2dto1d game (Int.ofNat x) (Int.ofNat y)).toNat
          (rnd (y * game.cols.toNat + x))) hy (List.range game.cols.toNat)) h
      (List.range game.rows.toNat)
    (GOL_ERR_OK, h')

/-- `gol_cellnext` (src/gol.c lines 119-128): survival for a live cell with
2 or 3 live neighbors, reproduction for a dead cell with exactly 3. -/
def gol_cellnext (is_alive : Bool) (live_neighbors : Int) : Bool :=
  let survive := is_alive && decide (2 ≤ live_neighbors) && decide (live_neighbors ≤ 3)
  let reproduce := !is_alive && decide (live_neighbors = 3)
  survive || reproduce

/-- Inner `x` loop of `gol_tick` (src/gol.c lines 143-155) over the listed
column indices of one row: reads the current (live) cell, counts neighbors
on the snapshot `copy`, and overwrites the live cell; an error from
`gol_countlive` returns immediately with the heap as mutated so far. -/
def tickRow (game copy : gameoflife) (y : Int) :
    List Nat → Heap → Except (Nat × Heap) Heap
  | [], h => Except.ok h
  | x :: xs, h =>
    let pos := (gol_2dto1d game (Int.ofNat x) y).toNat
    let is_alive := boardLoad h game pos
    match gol_countlive h copy (Int.ofNat x) y with
    | Except.error e => Except.error (e, h)
    | Except.ok n =>
      tickRow game copy y xs (boardStore h game pos (gol_cellnext is_alive n))

/-- Outer `y` loop of `gol_tick` (src/gol.c lines 142-156) over the listed
row indices. -/
def tickRows (game copy : gameoflife) :
    List Nat → Heap → Except (Nat × Heap) Heap
  | [], h => Except.ok h
  | y :: ys, h =>
    match tickRow game copy (Int.ofNat y) (List.range game.cols.toNat) h with
    | Except.error e => Except.error e
    | Except.ok h' => tickRows game copy ys h'

/-- `gol_tick` (src/gol.c lines 132-160): duplicates the whole game,
loops over every position updating the live board from the snapshot, then
frees the snapshot.  Returns the error code and the final heap (the struct
itself is not modified by the C function). -/
def gol_tick (h : Heap) (game : gameoflife) : Nat × Heap :=
  let c := gol_copy h game
  if c.1 ≠ GOL_ERR_OK then (c.1, c.2.2)
  else
    match tickRows game c.2.1 (List.range game.rows.toNat) c.2.2 with
    | Except.error e => e
    | Except.ok h₂ => (GOL_ERR_OK, (gol_free h₂ c.2.1).2.2)

/-- `gol_tostring` (src/gol.c lines 166-201): errors with `GOL_ERR_INIT` on a
NULL board; otherwise chooses the alive/dead characters from `src` (defaults
`'X'`/`'O'` when `src` is NULL; a non-NULL `src` must supply two characters,
read as `src[0]` and `src[1]`) and emits the board in raster order with a
single `'\n'` before every row but the first.  The result models the
`malloc`ed C string up to (not including) its `'\0'` terminator. -/
def gol_tostring (h : Heap) (game : gameoflife) (src : Option (Char × Char)) :
    Except Nat (List Char) :=
  match game.board with
  | none => Except.error GOL_ERR_INIT
  | some a =>
    let on_char := match src with | none => 'X' | some p => p.1
    let off_char := match src with | none => 'O' | some p => p.2
    Except.ok (List.foldl (fun acc y =>
      List.foldl (fun acc2 x =>
        acc2 ++ [if h.load a (gol_2dto1d game (Int.ofNat x) (Int.ofNat y)).toNat
                 then on_char else off_char])
        (if y ≠ 0 then acc ++ ['\n'] else acc)
        (List.range game.cols.toNat)) [] (List.range game.rows.toNat))

/-- `gol_countlive` specialised to reading a fixed board list: the count the
fold computes when the board block holds `bd` (same fold as the source,
with `Heap.load` replaced by direct list access). -/
def countliveList (rows cols : Int) (bd : List Bool) (x y : Int) : Int :=
  List.foldl (fun n d =>
    let nx := x + d.1
    let ny := y + d.2
    if nx < 0 ∨ cols ≤ nx ∨ ny < 0 ∨ rows ≤ ny then n
    else n + (cond (bd.getD (ny * cols + nx).toNat false) 1 0)) 0 neighbors

/-- Specification-side neighbor count (from the spec's words, for claim C3):
the number of the 8 Moore offsets whose position is in bounds and holds a
live cell on board `bd`. -/
def mooreLiveCount (rows cols : Int) (bd : List Bool) (x y : Int) : Nat :=
  (neighbors.filter (fun d =>
    decide ((0 ≤ x + d.1 ∧ x + d.1 < cols ∧ 0 ≤ y + d.2 ∧ y + d.2 < rows) ∧
      bd.getD ((y + d.2) * cols + (x + d.1)).toNat false = true))).length

/-- Concrete 5×5 row-major board whose only live cells are the horizontal
blinker at row 2, columns 1-3 (indices 11, 12, 13). -/
def blinkerBoard : List Bool :=
  [false, false, false, false, false,
   false, false, false, false, false,
   false, true,  true,  true,  false,
   false, false, false, false, false,
   false, false, false, false, false]

/-- Concrete 5×5 row-major board whose only live cells are the vertical
blinker at column 2, rows 1-3 (indices 7, 12, 17). -/
def blinkerVertical : List Bool :=
  [false, false, false, false, false,
   false, false, true,  false, false,
   false, false, true,  false, false,
   false, false, true,  false, false,
   false, false, false, false, false]

/-- Heap holding the blinker board at address 0. -/
def blinkerHeap : Heap := ⟨fun b => if b = 0 then some blinkerBoard else none, 1⟩

/-- The 5×5 grid struct whose board is the block at address 0. -/
def blinkerGame : gameoflife := ⟨5, 5, some 0⟩

/-- Concrete 2×3 row-major board `[true,false,true, false,true,false]` from
the spec's render scenario. -/
def renderBoard : List Bool := [true, false, true, false, true, false]

/-- Heap holding the render-scenario board at address 0. -/
def renderHeap : Heap := ⟨fun b => if b = 0 then some renderBoard else none, 1⟩

/-- The 2×3 grid struct (2 rows, 3 columns) whose board is block 0. -/
def renderGame : gameoflife := ⟨2, 3, some 0⟩

/-- The value `gol_tick` writes at raster index `i` of an `R`-row, `C`-column
board whose pre-tick contents are `bd`: `gol_cellnext` of the pre-tick cell
and the snapshot neighbor count at position `(i % C, i / C)`. -/
def tickCellValue (R C : Nat) (bd : List Bool) (i : Nat) : Bool :=
  gol_cellnext (bd.getD i false)
    (countliveList (R : Int) (C : Int) bd (Int.ofNat (i % C)) (Int.ofNat (i / C)))

/-! ### Heap lemmas -/

theorem Heap.mem_alloc_self (h : Heap) (d : List Bool) :
    (h.alloc d).2.mem (h.alloc d).1 = some d := by
  simp [Heap.alloc]

theorem Heap.mem_alloc_ne (h : Heap) (d : List Bool) (b : Nat) (hb : b ≠ h.next) :
    (h.alloc d).2.mem b = h.mem b := by
  simp [Heap.alloc, hb]

theorem Heap.next_alloc (h : Heap) (d : List Bool) :
    (h.alloc d).2.next = h.next + 1 := rfl

theorem Heap.mem_store_self (h : Heap) (a : Nat) (i : Nat) (v : Bool) :
    (h.store a i v).mem a = (h.mem a).map (fun l => l.set i v) := by
  simp [Heap.store]

theorem Heap.mem_store_ne (h : Heap) (a : Nat) (i : Nat) (v : Bool) (b : Nat)
    (hb : b ≠ a) : (h.store a i v).mem b = h.mem b := by
  simp [Heap.store, hb]

theorem Heap.next_store (h : Heap) (a : Nat) (i : Nat) (v : Bool) :
    (h.store a i v).next = h.next := rfl

theorem Heap.mem_dealloc_ne (h : Heap) (a b : Nat) (hb : b ≠ a) :
    (h.dealloc a).mem b = h.mem b := by
  simp [Heap.dealloc, hb]

theorem Heap.lt_next_of_mem (h : Heap) (a : Nat) (l : List Bool)
    (hw : h.wf) (hm : h.mem a = some l) : a < h.next := by
  by_contra hc
  rw [hw a (Nat.le_of_not_lt hc)] at hm
  exact Option.noConfusion hm

theorem Heap.wf_alloc (h : Heap) (d : List Bool) (hw : h.wf) : (h.alloc d).2.wf := by
  intro b hb
  rw [Heap.next_alloc] at hb
  rw [Heap.mem_alloc_ne h d b (by omega)]
  exact hw b (by omega)

theorem Heap.wf_store (h : Heap) (a : Nat) (i : Nat) (v : Bool) (hw : h.wf) :
    (h.store a i v).wf := by
  intro b hb
  rw [Heap.next_store] at hb
  by_cases hba : b = a
  · subst hba
    rw [Heap.mem_store_self, hw b hb]
    rfl
  · rw [Heap.mem_store_ne h a i v b hba]
    exact hw b hb

/-! ### List helper lemmas -/

theorem getD_set (l : List Bool) (i j : Nat) (v : Bool) :
    (l.set i v).getD j false = if j = i ∧ i < l.length then v else l.getD j false := by
  simp only [List.getD_eq_getElem?_getD, List.getElem?_set]
  by_cases hij : i = j
  · subst hij
    by_cases hlt : i < l.length
    · simp [hlt]
    · simp [hlt, List.getElem?_eq_none (Nat.le_of_not_lt hlt)]
  · have : ¬(j = i ∧ i < l.length) := fun hc => hij hc.1.symm
    simp [hij, this]

theorem foldl_preserves {α : Type} (P : Heap → Prop) (f : Heap → α → Heap)
    (hf : ∀ hh x, P hh → P (f hh x)) :
    ∀ (l : List α) (hh : Heap), P hh → P (List.foldl f hh l)
  | [], _, hp => hp
  | x :: xs, hh, hp => foldl_preserves P f hf xs (f hh x) (hf hh x hp)

theorem tickRows_of_cols_zero (game copy : gameoflife) (hc : game.cols.toNat = 0) :
    ∀ (ys : List Nat) (h : Heap), tickRows game copy ys h = Except.ok h
  | [], _ => rfl
  | y :: ys, h => by
    simp [tickRows, hc, tickRow, tickRows_of_cols_zero game copy hc ys h]

/-- Unfolding of `gol_tick` on a grid without board storage: the internal
`gol_copy` performs no allocation and the copy inherits the NULL board. -/
theorem gol_tick_unfold_none (h : Heap) (g : gameoflife) (hb : g.board = none) :
    gol_tick h g =
      match tickRows g ⟨g.rows, g.cols, none⟩ (List.range g.rows.toNat) h with
      | Except.error e => e
      | Except.ok h₂ => (GOL_ERR_OK, (gol_free h₂ ⟨g.rows, g.cols, none⟩).2.2) := by
  obtain ⟨rows, cols, board⟩ := g
  cases hb
  rfl

/-- C2: `gol_cellnext` realises the standard Conway rule — the result is true
exactly when (alive and 2 or 3 live neighbors) or (dead and exactly 3) —
and it matches the spec's unit table. -/
theorem gol_cellnext_rule :
    (∀ (b : Bool) (n : Int), gol_cellnext b n = true ↔
      ((b = true ∧ (n = 2 ∨ n = 3)) ∨ (b = false ∧ n = 3))) ∧
    gol_cellnext true 0 = false ∧ gol_cellnext true 1 = false ∧
    gol_cellnext true 2 = true ∧ gol_cellnext true 3 = true ∧
    gol_cellnext true 4 = false ∧ gol_cellnext false 3 = true ∧
    gol_cellnext false 2 = false := by
  refine ⟨fun b n => ?_, by decide, by decide, by decide, by decide,
    by decide, by decide, by decide⟩
  cases b
  · simp [gol_cellnext]
  · simp [gol_cellnext]
    omega

/-- C9: `gol_free` always returns `GOL_ERR_OK`, resets the struct to the
uninitialized state (zero dimensions, NULL board), and a second `gol_free`
on the result is a no-op on the heap (no double-free) that again succeeds
and leaves the struct uninitialized. -/
theorem gol_free_release_idempotent :
    ∀ (h : Heap) (g : gameoflife),
      (gol_free h g).1 = GOL_ERR_OK ∧
      (gol_free h g).2.1 = ⟨0, 0, none⟩ ∧
      gol_free (gol_free h g).2.2 (gol_free h g).2.1 =
        (GOL_ERR_OK, ⟨0, 0, none⟩, (gol_free h g).2.2) :=
  fun _ _ => ⟨rfl, rfl, rfl⟩

/-- C5: on the 5×5 grid holding the horizontal blinker (row 2, columns 1-3),
one `gol_tick` succeeds and yields exactly the vertical blinker (column 2,
rows 1-3, all other cells dead) and a second `gol_tick` succeeds and
restores exactly the original horizontal board. -/
theorem gol_tick_blinker_period_two :
    (gol_tick blinkerHeap blinkerGame).1 = GOL_ERR_OK ∧
    (gol_tick blinkerHeap blinkerGame).2.mem 0 = some blinkerVertical ∧
    (gol_tick (gol_tick blinkerHeap blinkerGame).2 blinkerGame).1 = GOL_ERR_OK ∧
    (gol_tick (gol_tick blinkerHeap blinkerGame).2 blinkerGame).2.mem 0 =
      some blinkerBoard := by
  decide

/-- C10: on any initialized grid, `gol_tostring` with a NULL character pair
succeeds and produces exactly the output of the fixed default pair
`('X', 'O')`, so the output with no character pair is uniquely determined. -/
theorem gol_tostring_default_pair (h : Heap) (g : gameoflife) (a : Nat)
    (hb : g.board = some a) :
    gol_tostring h g none = gol_tostring h g (some ('X', 'O')) ∧
    ∃ s, gol_tostring h g none = Except.ok s := by
  obtain ⟨rows, cols, board⟩ := g
  cases hb
  exact ⟨rfl, _, rfl⟩

/-- Witness for C10 at the concrete 2×3 render grid. -/
theorem gol_tostring_default_pair_witness :
    gol_tostring renderHeap renderGame none =
      gol_tostring renderHeap renderGame (some ('X', 'O')) ∧
    ∃ s, gol_tostring renderHeap renderGame none = Except.ok s :=
  gol_tostring_default_pair renderHeap renderGame 0 rfl

/-- C4 counterexample: `gol_tick` on the storage-less zero-dimension grid
(exactly the state `gol_free` leaves behind) returns `GOL_ERR_OK` — its
per-cell loop never executes, so no internal operation ever reports
`GOL_ERR_INIT` — refuting the claim that every Advance on a storage-less
grid returns the NotInitialized error rather than Success. -/
theorem gol_tick_uninit_counterexample :
    (gol_tick emptyHeap ⟨0, 0, none⟩).1 = GOL_ERR_OK ∧
    GOL_ERR_OK ≠ GOL_ERR_INIT := by
  decide

/-- C4 (amended): `gol_populate`, `gol_countlive` and `gol_tostring` return
`GOL_ERR_INIT` on every grid without board storage; `gol_tick` on a
storage-less grid whose `rows` or `cols` is nonpositive returns
`GOL_ERR_OK`, because the per-cell loop never executes and so no internal
operation reports an error.  These are the only storage-less paths on which
the C program has defined behaviour: with both dimensions positive,
`gol_tick` dereferences the NULL board (src/gol.c line 146) before the
internal count operation could report the error, so nothing is asserted
about that path. -/
theorem uninit_ops_report_error :
    (∀ (h : Heap) (g : gameoflife) (rnd : Nat → Bool), g.board = none →
      (gol_populate h g rnd).1 = GOL_ERR_INIT) ∧
    (∀ (h : Heap) (g : gameoflife) (x y : Int), g.board = none →
      gol_countlive h g x y = Except.error GOL_ERR_INIT) ∧
    (∀ (h : Heap) (g : gameoflife) (src : Option (Char × Char)), g.board = none →
      gol_tostring h g src = Except.error GOL_ERR_INIT) ∧
    (∀ (h : Heap) (g : gameoflife), g.board = none → g.rows ≤ 0 ∨ g.cols ≤ 0 →
      (gol_tick h g).1 = GOL_ERR_OK) := by
  refine ⟨?_, ?_, ?_, ?_⟩
  · intro h g rnd hb
    simp [gol_populate, hb]
  · intro h g x y hb
    simp [gol_countlive, hb]
  · intro h g src hb
    simp [gol_tostring, hb]
  · intro h g hb hrc
    rw [gol_tick_unfold_none h g hb]
    rcases hrc with hr | hc
    · rw [show g.rows.toNat = 0 by omega]
      rfl
    · rw [tickRows_of_cols_zero g ⟨g.rows, g.cols, none⟩ (by omega)
        (List.range g.rows.toNat) h]

/-- Witness for the amended C4 at concrete storage-less grids. -/
theorem uninit_ops_report_error_witness :
    (gol_populate emptyHeap ⟨2, 2, none⟩ (fun _ => false)).1 = GOL_ERR_INIT ∧
    gol_countlive emptyHeap ⟨2, 2, none⟩ 0 0 = Except.error GOL_ERR_INIT ∧
    gol_tostring emptyHeap ⟨2, 2, none⟩ none = Except.error GOL_ERR_INIT ∧
    (gol_tick emptyHeap ⟨0, 5, none⟩).1 = GOL_ERR_OK :=
  ⟨uninit_ops_report_error.1 _ _ _ rfl,
   uninit_ops_report_error.2.1 _ _ 0 0 rfl,
   uninit_ops_report_error.2.2.1 _ _ none rfl,
   uninit_ops_report_error.2.2.2 _ _ rfl (Or.inl (by decide))⟩

/-- `gol_countlive` on an initialized grid computes the snapshot-board count
`countliveList` of the block contents. -/
theorem gol_countlive_eq_list (h : Heap) (g : gameoflife) (a : Nat) (bd : List Bool)
    (hb : g.board = some a) (hm : h.mem a = some bd) (x y : Int) :
    gol_countlive h g x y = Except.ok (countliveList g.rows g.cols bd x y) := by
  obtain ⟨rows, cols, board⟩ := g
  cases hb
  simp only [gol_countlive, countliveList, Heap.load, hm, gol_2dto1d, Option.getD_some]

theorem countliveList_eq_aux (rows cols : Int) (bd : List Bool) (x y : Int) :
    ∀ (l : List (Int × Int)) (n : Int),
      List.foldl (fun n d =>
        let nx := x + d.1
        let ny := y + d.2
        if nx < 0 ∨ cols ≤ nx ∨ ny < 0 ∨ rows ≤ ny then n
        else n + (cond (bd.getD (ny * cols + nx).toNat false) 1 0)) n l =
      n + ((l.filter (fun d =>
        decide ((0 ≤ x + d.1 ∧ x + d.1 < cols ∧ 0 ≤ y + d.2 ∧ y + d.2 < rows) ∧
          bd.getD ((y + d.2) * cols + (x + d.1)).toNat false = true))).length : Int)
  | [], n => by simp
  | d :: l, n => by
    simp only [List.foldl_cons, List.filter_cons, decide_eq_true_eq]
    by_cases hin : x + d.1 < 0 ∨ cols ≤ x + d.1 ∨ y + d.2 < 0 ∨ rows ≤ y + d.2
    · have hq : ¬((0 ≤ x + d.1 ∧ x + d.1 < cols ∧ 0 ≤ y + d.2 ∧ y + d.2 < rows) ∧
          bd.getD ((y + d.2) * cols + (x + d.1)).toNat false = true) := by
        rintro ⟨⟨h1, h2, h3, h4⟩, -⟩
        rcases hin with h | h | h | h <;> omega
      rw [if_pos hin, if_neg hq, countliveList_eq_aux rows cols bd x y l n]
    · push_neg at hin
      obtain ⟨h1, h2, h3, h4⟩ := hin
      rw [if_neg (show
        ¬(x + d.1 < 0 ∨ cols ≤ x + d.1 ∨ y + d.2 < 0 ∨ rows ≤ y + d.2) by omega)]
      cases hcell : bd.getD ((y + d.2) * cols + (x + d.1)).toNat false with
      | true =>
        rw [if_pos ⟨⟨h1, h2, h3, h4⟩, rfl⟩,
          countliveList_eq_aux rows cols bd x y l _]
        simp only [cond_true, List.length_cons]
        push_cast
        ring
      | false =>
        rw [if_neg (fun hc => Bool.false_ne_true hc.2),
          countliveList_eq_aux rows cols bd x y l _]
        simp only [cond_false, add_zero]

/-- The source's fold-based neighbor count equals the specification-side
Moore-neighborhood count. -/
theorem countliveList_eq_moore (rows cols : Int) (bd : List Bool) (x y : Int) :
    countliveList rows cols bd x y = (mooreLiveCount rows cols bd x y : Int) := by
  rw [countliveList, mooreLiveCount, countliveList_eq_aux rows cols bd x y neighbors 0]
  simp

/-- C3: `gol_countlive` on an initialized grid examines exactly the 8 Moore
offsets, silently skips every offset position outside `[0, cols) × [0, rows)`
(no wraparound, no error), and returns the number of live cells among the
in-bounds neighbors — a natural number, hence at least 0, and at most 8;
at the corner (0,0) of a grid with at least 2 columns and 2 rows only the
in-bounds neighbors (0,1), (1,0) and (1,1) contribute. -/
theorem gol_countlive_moore_spec (h : Heap) (g : gameoflife) (a : Nat)
    (bd : List Bool) (hb : g.board = some a) (hm : h.mem a = some bd)
    (x y : Int) :
    neighbors.length = 8 ∧
    gol_countlive h g x y =
      Except.ok ((mooreLiveCount g.rows g.cols bd x y : Int)) ∧
    mooreLiveCount g.rows g.cols bd x y ≤ 8 ∧
    (2 ≤ g.cols → 2 ≤ g.rows →
      gol_countlive h g 0 0 = Except.ok
        (cond (bd.getD g.cols.toNat false) 1 0 +
         cond (bd.getD 1 false) 1 0 +
         cond (bd.getD (g.cols.toNat + 1) false) 1 0)) := by
  refine ⟨rfl, ?_, ?_, ?_⟩
  · rw [gol_countlive_eq_list h g a bd hb hm x y, countliveList_eq_moore]
  · exact le_trans (List.length_filter_le _ _) (by decide)
  · intro hc hr
    rw [gol_countlive_eq_list h g a bd hb hm 0 0]
    congr 1
    have hc0 : ¬g.cols ≤ (0:Int) := by omega
    have hc1 : ¬g.cols ≤ (1:Int) := by omega
    have hr0 : ¬g.rows ≤ (0:Int) := by omega
    have hr1 : ¬g.rows ≤ (1:Int) := by omega
    have ht : (g.cols + 1).toNat = g.cols.toNat + 1 := by omega
    simp only [countliveList, neighbors, List.foldl_cons, List.foldl_nil]
    norm_num [hc0, hc1, hr0, hr1, ht]

/-- Witness for C3 at the concrete blinker grid. -/
theorem gol_countlive_moore_spec_witness :
    gol_countlive blinkerHeap blinkerGame 2 2 =
      Except.ok ((mooreLiveCount 5 5 blinkerBoard 2 2 : Int)) ∧
    gol_countlive blinkerHeap blinkerGame 0 0 = Except.ok
      (cond (blinkerBoard.getD 5 false) 1 0 +
       cond (blinkerBoard.getD 1 false) 1 0 +
       cond (blinkerBoard.getD 6 false) 1 0) :=
  ⟨(gol_countlive_moore_spec blinkerHeap blinkerGame 0 blinkerBoard rfl rfl
      2 2).2.1,
   (gol_countlive_moore_spec blinkerHeap blinkerGame 0 blinkerBoard rfl rfl
      0 0).2.2.2 (by decide) (by decide)⟩

/-- Unfolding of `gol_copy` on an initialized source grid. -/
theorem gol_copy_eq_some (h : Heap) (src : gameoflife) (a : Nat)
    (hb : src.board = some a) :
    gol_copy h src =
      (GOL_ERR_OK, ⟨src.rows, src.cols, some h.next⟩,
        (h.alloc (((h.mem a).getD []).take ((src.cols * src.rows).toNat))).2) := by
  obtain ⟨rows, cols, board⟩ := src
  cases hb
  rfl

/-- `gol_populate` writes only through the grid's own board pointer: every
other address is untouched. -/
theorem gol_populate_frame (h : Heap) (g : gameoflife) (a2 : Nat)
    (rnd : Nat → Bool) (hb : g.board = some a2) (b : Nat) (hne : b ≠ a2) :
    (gol_populate h g rnd).2.mem b = h.mem b := by
  obtain ⟨rows, cols, board⟩ := g
  cases hb
  simp only [gol_populate]
  exact foldl_preserves (fun hh => hh.mem b = h.mem b) _
    (fun hy y hp => foldl_preserves (fun hh => hh.mem b = h.mem b) _
      (fun hx x hp2 => by
        show (hx.store a2 _ _).mem b = h.mem b
        rw [Heap.mem_store_ne hx a2 _ _ b hne]
        exact hp2) _ hy hp)
    _ h rfl

/-- C6: on a well-formed heap, `gol_copy` of an initialized source succeeds
and produces a grid with the same `rows` and `cols` whose board is a fresh
block, distinct from the source's, holding exactly the source's cells, while
the source block is unchanged; and any subsequent `gol_populate` of the
duplicate (with an arbitrary randomness stream) leaves every cell of the
source unchanged. -/
theorem gol_copy_independent (h : Heap) (src : gameoflife) (a : Nat)
    (bd : List Bool) (hw : h.wf) (hb : src.board = some a)
    (hm : h.mem a = some bd)
    (hlen : bd.length = (src.cols * src.rows).toNat) :
    (gol_copy h src).1 = GOL_ERR_OK ∧
    (gol_copy h src).2.1.rows = src.rows ∧
    (gol_copy h src).2.1.cols = src.cols ∧
    ∃ a2, (gol_copy h src).2.1.board = some a2 ∧ a2 ≠ a ∧
      (gol_copy h src).2.2.mem a2 = some bd ∧
      (gol_copy h src).2.2.mem a = some bd ∧
      ∀ rnd : Nat → Bool,
        (gol_populate (gol_copy h src).2.2 (gol_copy h src).2.1 rnd).2.mem a =
          some bd := by
  have hne : a ≠ h.next := Nat.ne_of_lt (Heap.lt_next_of_mem h a bd hw hm)
  have hdata : ((h.mem a).getD []).take ((src.cols * src.rows).toNat) = bd := by
    rw [hm, Option.getD_some, ← hlen, List.take_length]
  rw [gol_copy_eq_some h src a hb, hdata]
  refine ⟨rfl, rfl, rfl, h.next, rfl, fun hc => hne hc.symm, ?_, ?_, ?_⟩
  · exact Heap.mem_alloc_self h bd
  · rw [Heap.mem_alloc_ne h bd a hne]
    exact hm
  · intro rnd
    rw [gol_populate_frame _ _ h.next rnd rfl a hne,
      Heap.mem_alloc_ne h bd a hne]
    exact hm

/-- Witness for C6 at the concrete 2×3 render grid. -/
theorem gol_copy_independent_witness :
    (gol_copy renderHeap renderGame).1 = GOL_ERR_OK ∧
    (gol_copy renderHeap renderGame).2.1.rows = renderGame.rows ∧
    (gol_copy renderHeap renderGame).2.1.cols = renderGame.cols ∧
    ∃ a2, (gol_copy renderHeap renderGame).2.1.board = some a2 ∧ a2 ≠ 0 ∧
      (gol_copy renderHeap renderGame).2.2.mem a2 = some renderBoard ∧
      (gol_copy renderHeap renderGame).2.2.mem 0 = some renderBoard ∧
      ∀ rnd : Nat → Bool,
        (gol_populate (gol_copy renderHeap renderGame).2.2
          (gol_copy renderHeap renderGame).2.1 rnd).2.mem 0 =
          some renderBoard :=
  gol_copy_independent renderHeap renderGame 0 renderBoard
    (fun b hbb => by
      simp only [renderHeap] at hbb ⊢
      rw [if_neg (by omega)])
    rfl rfl (by decide)

theorem foldl_append_one {α β : Type} (f : α → β) :
    ∀ (l : List α) (acc : List β),
      List.foldl (fun acc2 x => acc2 ++ [f x]) acc l = acc ++ l.map f
  | [], acc => by simp
  | x :: l, acc => by
    simp only [List.foldl_cons, List.map_cons, foldl_append_one f l]
    simp

theorem intercalate_cons_two (sep r s : List Char) (rs : List (List Char)) :
    List.intercalate sep (r :: s :: rs) = r ++ sep ++ List.intercalate sep (s :: rs) := by
  simp [List.intercalate, List.intersperse_cons_cons]

theorem intercalate_newline (row : Nat → List Char) :
    ∀ (ys : List Nat) (r : List Char),
      List.intercalate ['\n'] (r :: ys.map row) =
      r ++ (ys.map (fun y => '\n' :: row y)).flatten
  | [], r => by simp [List.intercalate]
  | y :: ys, r => by
    rw [List.map_cons, intercalate_cons_two, intercalate_newline row ys (row y)]
    simp

theorem foldl_lines (row : Nat → List Char) :
    ∀ (ys : List Nat) (acc : List Char), (∀ y ∈ ys, y ≠ 0) →
      List.foldl (fun acc y =>
        (if y ≠ 0 then acc ++ ['\n'] else acc) ++ row y) acc ys =
      acc ++ (ys.map (fun y => '\n' :: row y)).flatten
  | [], acc, _ => by simp
  | y :: ys, acc, hy => by
    simp only [List.foldl_cons]
    rw [if_pos (hy y (by simp)),
      foldl_lines row ys _ (fun z hz => hy z (by simp [hz]))]
    simp

theorem foldl_lines_range (row : Nat → List Char) (R : Nat) :
    List.foldl (fun acc y => (if y ≠ 0 then acc ++ ['\n'] else acc) ++ row y)
      [] (List.range R) =
    List.intercalate ['\n'] ((List.range R).map row) := by
  cases R with
  | zero => simp [List.intercalate]
  | succ R2 =>
    rw [List.range_eq_range' _,
      show List.range' 0 (R2 + 1) = 0 :: List.range' 1 R2 by simp [List.range']]
    simp only [List.foldl_cons]
    rw [if_neg (by simp), List.nil_append,
      foldl_lines row (List.range' 1 R2) (row 0) (fun z hz => by
        have := (List.mem_range'_1.mp hz).1
        omega),
      List.map_cons, intercalate_newline row (List.range' 1 R2) (row 0)]

/-- C7: on an initialized grid, `gol_tostring` with characters
`(onc, offc)` succeeds and produces exactly `rows` lines of `cols`
characters each, adjacent lines separated by a single line-break character
with no leading or trailing break (`List.intercalate` of the row lists),
where position `(x, y)` holds `onc` when cell `(x, y)` is alive and `offc`
otherwise; in particular the 2×3 grid `[true,false,true,false,true,false]`
with characters `('#','.')` renders exactly the 7 characters of
`"#.#\n.#."`. -/
theorem gol_tostring_layout (h : Heap) (g : gameoflife) (a : Nat)
    (R C : Nat) (onc offc : Char)
    (hb : g.board = some a) (hr : g.rows = (R : Int)) (hc : g.cols = (C : Int)) :
    gol_tostring h g (some (onc, offc)) = Except.ok
      (List.intercalate ['\n'] ((List.range R).map (fun y =>
        (List.range C).map (fun x =>
          if h.load a (y * C + x) then onc else offc)))) ∧
    ((List.range R).map (fun y => (List.range C).map (fun x =>
       if h.load a (y * C + x) then onc else offc))).length = R ∧
    (∀ row ∈ (List.range R).map (fun y => (List.range C).map (fun x =>
       if h.load a (y * C + x) then onc else offc)), row.length = C) ∧
    gol_tostring renderHeap renderGame (some ('#', '.')) =
      Except.ok ['#', '.', '#', '\n', '.', '#', '.'] := by
  refine ⟨?_, by simp, ?_, by rfl⟩
  · obtain ⟨rows, cols, board⟩ := g
    cases hb
    simp only at hr hc
    subst hr
    subst hc
    simp only [gol_tostring, gol_2dto1d]
    have hidx : ∀ (x y : Nat),
        ((Int.ofNat y) * ((C : Nat) : Int) + Int.ofNat x).toNat = y * C + x := by
      intro x y
      rw [show ((Int.ofNat y) * ((C : Nat) : Int) + Int.ofNat x) =
        ((y * C + x : Nat) : Int) by
          simp only [Int.ofNat_eq_coe]
          push_cast
          ring]
      omega
    simp only [Int.toNat_natCast, hidx]
    congr 1
    simp only [foldl_append_one]
    rw [foldl_lines_range]
  · intro row hrow
    simp only [List.mem_map] at hrow
    obtain ⟨y, _, hy⟩ := hrow
    rw [← hy]
    simp

/-- Witness for C7: the concrete 2×3 render scenario. -/
theorem gol_tostring_layout_witness :
    gol_tostring renderHeap renderGame (some ('#', '.')) = Except.ok
      (List.intercalate ['\n'] ((List.range 2).map (fun y =>
        (List.range 3).map (fun x =>
          if renderHeap.load 0 (y * 3 + x) then '#' else '.')))) ∧
    gol_tostring renderHeap renderGame (some ('#', '.')) =
      Except.ok ['#', '.', '#', '\n', '.', '#', '.'] :=
  ⟨(gol_tostring_layout renderHeap renderGame 0 2 3 '#' '.' rfl rfl rfl).1,
   (gol_tostring_layout renderHeap renderGame 0 2 3 '#' '.' rfl rfl rfl).2.2.2⟩

/-- Invariant of the inner `x` loop of `gol_tick`: processing columns
`x0, ..., x0+k-1` of row `y` extends the prefix of updated cells from raster
index `y*C + x0` to `y*C + x0 + k`, each updated cell holding
`tickCellValue` of the pre-tick snapshot, while the snapshot block and every
other address stay unchanged. -/
theorem tickRow_spec (game copy : gameoflife) (a a2 : Nat) (bd : List Bool)
    (R C : Nat) (hga : game.board = some a) (hca : copy.board = some a2)
    (hne : a2 ≠ a) (hgc : game.cols = (C : Int))
    (hcr : copy.rows = (R : Int)) (hcc : copy.cols = (C : Int))
    (y : Nat) (hy : y < R) :
    ∀ (k x0 : Nat), x0 + k ≤ C →
      ∀ (h : Heap) (cur : List Bool), h.mem a = some cur →
        h.mem a2 = some bd → cur.length = R * C → bd.length = R * C →
        (∀ i, cur.getD i false =
          if i < y * C + x0 then tickCellValue R C bd i else bd.getD i false) →
        ∃ h' cur', tickRow game copy (Int.ofNat y) (List.range' x0 k) h =
            Except.ok h' ∧
          h'.mem a = some cur' ∧ h'.mem a2 = some bd ∧
          cur'.length = R * C ∧
          (∀ i, cur'.getD i false =
            if i < y * C + x0 + k then tickCellValue R C bd i
            else bd.getD i false) ∧
          (∀ b, b ≠ a → h'.mem b = h.mem b) ∧ h'.next = h.next := by
  intro k
  induction k with
  | zero =>
    intro x0 hx h cur hmem hmem2 hcl hbl hinv
    exact ⟨h, cur, rfl, hmem, hmem2, hcl, fun i => hinv i, fun b _ => rfl, rfl⟩
  | succ k ih =>
    intro x0 hx h cur hmem hmem2 hcl hbl hinv
    have hx0C : x0 < C := by omega
    have hposlt : y * C + x0 < R * C := by
      have h1 : y * C + x0 < (y + 1) * C := by
        have h2 : (y + 1) * C = y * C + C := by ring
        omega
      have h3 : (y + 1) * C ≤ R * C := Nat.mul_le_mul_right C hy
      omega
    have hpos : (gol_2dto1d game (Int.ofNat x0) (Int.ofNat y)).toNat = y * C + x0 := by
      simp only [gol_2dto1d, hgc]
      rw [show (Int.ofNat y * ((C : Nat) : Int) + Int.ofNat x0) =
        ((y * C + x0 : Nat) : Int) by
          simp only [Int.ofNat_eq_coe]
          push_cast
          ring]
      omega
    have hload : h.load a (y * C + x0) = cur.getD (y * C + x0) false := by
      simp [Heap.load, hmem]
    have hcur : cur.getD (y * C + x0) false = bd.getD (y * C + x0) false := by
      rw [hinv (y * C + x0), if_neg (by omega)]
    have htv : tickCellValue R C bd (y * C + x0) =
        gol_cellnext (bd.getD (y * C + x0) false)
          (countliveList (R : Int) (C : Int) bd (Int.ofNat x0) (Int.ofNat y)) := by
      simp only [tickCellValue]
      rw [show (y * C + x0) % C = x0 by
          rw [Nat.mul_comm y C, Nat.mul_add_mod]
          exact Nat.mod_eq_of_lt hx0C,
        show (y * C + x0) / C = y by
          rw [Nat.mul_comm y C, Nat.mul_add_div (by omega : 0 < C),
            Nat.div_eq_of_lt hx0C, Nat.add_zero]]
    rw [show List.range' x0 (k + 1) = x0 :: List.range' (x0 + 1) k by
      simp [List.range']]
    simp only [tickRow, boardLoad, boardStore, hga, hpos,
      gol_countlive_eq_list h copy a2 bd hca hmem2 (Int.ofNat x0) (Int.ofNat y),
      hload]
    set v := gol_cellnext (cur.getD (y * C + x0) false)
      (countliveList copy.rows copy.cols bd (Int.ofNat x0) (Int.ofNat y)) with hv
    have hvtv : v = tickCellValue R C bd (y * C + x0) := by
      rw [hv, htv, hcur, hcr, hcc]
    obtain ⟨h', cur', htr, hm', hm2', hcl', hinv', hframe', hnext'⟩ :=
      ih (x0 + 1) (by omega) (h.store a (y * C + x0) v) (cur.set (y * C + x0) v)
        (by rw [Heap.mem_store_self, hmem]; rfl)
        (by rw [Heap.mem_store_ne h a _ _ a2 hne]; exact hmem2)
        (by rw [List.length_set]; exact hcl)
        hbl
        (by
          intro i
          rw [getD_set]
          by_cases hi : i = y * C + x0
          · subst hi
            rw [if_pos ⟨rfl, by omega⟩, if_pos (by omega), hvtv]
          · rw [if_neg (fun hc => hi hc.1), hinv i]
            by_cases hlt : i < y * C + x0
            · rw [if_pos hlt, if_pos (by omega)]
            · rw [if_neg hlt, if_neg (by omega)])
    refine ⟨h', cur', htr, hm', hm2', hcl', ?_, ?_, ?_⟩
    · intro i
      rw [hinv' i]
      by_cases hlt : i < y * C + x0 + (k + 1)
      · rw [if_pos (by omega), if_pos hlt]
      · rw [if_neg (by omega), if_neg hlt]
    · intro b hb
      rw [hframe' b hb, Heap.mem_store_ne h a _ _ b hb]
    · rw [hnext']
      rfl

/-- Invariant of the outer `y` loop of `gol_tick`: processing rows
`y0, ..., y0+k-1` extends the updated prefix from `y0*C` to `(y0+k)*C`. -/
theorem tickRows_spec (game copy : gameoflife) (a a2 : Nat) (bd : List Bool)
    (R C : Nat) (hga : game.board = some a) (hca : copy.board = some a2)
    (hne : a2 ≠ a) (hgc : game.cols = (C : Int))
    (hcr : copy.rows = (R : Int)) (hcc : copy.cols = (C : Int)) :
    ∀ (k y0 : Nat), y0 + k ≤ R →
      ∀ (h : Heap) (cur : List Bool), h.mem a = some cur →
        h.mem a2 = some bd → cur.length = R * C → bd.length = R * C →
        (∀ i, cur.getD i false =
          if i < y0 * C then tickCellValue R C bd i else bd.getD i false) →
        ∃ h' cur', tickRows game copy (List.range' y0 k) h = Except.ok h' ∧
          h'.mem a = some cur' ∧ h'.mem a2 = some bd ∧
          cur'.length = R * C ∧
          (∀ i, cur'.getD i false =
            if i < (y0 + k) * C then tickCellValue R C bd i
            else bd.getD i false) ∧
          (∀ b, b ≠ a → h'.mem b = h.mem b) ∧ h'.next = h.next := by
  intro k
  induction k with
  | zero =>
    intro y0 hyk h cur hmem hmem2 hcl hbl hinv
    exact ⟨h, cur, rfl, hmem, hmem2, hcl, fun i => hinv i, fun b _ => rfl, rfl⟩
  | succ k ih =>
    intro y0 hyk h cur hmem hmem2 hcl hbl hinv
    have hy0 : y0 < R := by omega
    rw [show List.range' y0 (k + 1) = y0 :: List.range' (y0 + 1) k by
      simp [List.range']]
    simp only [tickRows]
    have hcols : game.cols.toNat = C := by
      rw [hgc]
      omega
    rw [hcols, List.range_eq_range' C]
    obtain ⟨h2, cur2, htr, hm2, hm22, hcl2, hinv2, hframe2, hnext2⟩ :=
      tickRow_spec game copy a a2 bd R C hga hca hne hgc hcr hcc y0 hy0 C 0
        (by omega) h cur hmem hmem2 hcl hbl (fun i => hinv i)
    rw [htr]
    obtain ⟨h', cur', htr', hm', hm2', hcl', hinv', hframe', hnext'⟩ :=
      ih (y0 + 1) (by omega) h2 cur2 hm2 hm22 hcl2 hbl
        (by
          intro i
          rw [hinv2 i, show y0 * C + 0 + C = (y0 + 1) * C by ring])
    refine ⟨h', cur', htr', hm', hm2', hcl', ?_, ?_, ?_⟩
    · intro i
      rw [hinv' i, show (y0 + 1 + k) * C = (y0 + (k + 1)) * C by ring]
    · intro b hb
      rw [hframe' b hb, hframe2 b hb]
    · rw [hnext', hnext2]

/-- Unfolding of `gol_tick` on a grid with board storage: the internal
`gol_copy` allocates the snapshot at the fresh address `h.next`. -/
theorem gol_tick_unfold_some (h : Heap) (g : gameoflife) (a : Nat)
    (hb : g.board = some a) :
    gol_tick h g =
      match tickRows g ⟨g.rows, g.cols, some h.next⟩ (List.range g.rows.toNat)
          (h.alloc (((h.mem a).getD []).take ((g.cols * g.rows).toNat))).2 with
      | Except.error e => e
      | Except.ok h2 =>
        (GOL_ERR_OK, (gol_free h2 ⟨g.rows, g.cols, some h.next⟩).2.2) := by
  obtain ⟨rows, cols, board⟩ := g
  cases hb
  rfl

/-- Full behaviour of `gol_tick` on a well-formed initialized grid: it
succeeds and the grid's block afterwards holds, at every raster index,
`tickCellValue` of the pre-tick board — a pure function of the single
pre-tick snapshot. -/
theorem gol_tick_spec (h : Heap) (game : gameoflife) (a : Nat) (bd : List Bool)
    (R C : Nat) (hw : h.wf) (hb : game.board = some a)
    (hr : game.rows = (R : Int)) (hc : game.cols = (C : Int))
    (hm : h.mem a = some bd) (hlen : bd.length = R * C) :
    ∃ h' bd', gol_tick h game = (GOL_ERR_OK, h') ∧
      h'.mem a = some bd' ∧ bd'.length = R * C ∧
      (∀ i, bd'.getD i false =
        if i < R * C then tickCellValue R C bd i else bd.getD i false) := by
  have hane : a ≠ h.next := Nat.ne_of_lt (Heap.lt_next_of_mem h a bd hw hm)
  have hdata : ((h.mem a).getD []).take ((game.cols * game.rows).toNat) = bd := by
    rw [hm, Option.getD_some,
      show (game.cols * game.rows).toNat = C * R by
        rw [hc, hr, ← Nat.cast_mul]
        omega,
      show C * R = bd.length by rw [hlen]; ring, List.take_length]
  rw [gol_tick_unfold_some h game a hb, hdata]
  have hrows : game.rows.toNat = R := by
    rw [hr]
    omega
  rw [hrows, List.range_eq_range' R]
  obtain ⟨h', cur', htr, hm', hm2', hcl', hinv', hframe', hnext'⟩ :=
    tickRows_spec game ⟨game.rows, game.cols, some h.next⟩ a h.next bd R C hb rfl
      (fun hc2 => hane hc2.symm) hc hr hc R 0 (by omega)
      (h.alloc bd).2 bd
      (by rw [Heap.mem_alloc_ne h bd a hane]; exact hm)
      (Heap.mem_alloc_self h bd)
      hlen hlen
      (fun i => by rw [if_neg (by omega)])
  rw [htr]
  refine ⟨h'.dealloc h.next, cur', rfl, ?_, hcl', ?_⟩
  · rw [Heap.mem_dealloc_ne h' h.next a hane]
    exact hm'
  · intro i
    rw [hinv' i, show (0 + R) * C = R * C by ring]

/-- C1: on a well-formed heap, a successful `gol_tick` of an initialized
`R×C` grid overwrites every cell `(x, y)` with `gol_cellnext` applied to
that cell's pre-tick value and the neighbor count `countliveList` computed
entirely from the single pre-tick snapshot `bd` of the whole grid — so no
cell's result depends on any other cell's already-updated value within the
same tick. -/
theorem gol_tick_synchronous (h : Heap) (game : gameoflife) (a : Nat)
    (bd : List Bool) (R C : Nat) (hw : h.wf) (hb : game.board = some a)
    (hr : game.rows = (R : Int)) (hc : game.cols = (C : Int))
    (hm : h.mem a = some bd) (hlen : bd.length = R * C) :
    ∃ h' bd', gol_tick h game = (GOL_ERR_OK, h') ∧
      h'.mem a = some bd' ∧ bd'.length = R * C ∧
      ∀ x y : Nat, x < C → y < R →
        bd'.getD (y * C + x) false =
          gol_cellnext (bd.getD (y * C + x) false)
            (countliveList (R : Int) (C : Int) bd (Int.ofNat x) (Int.ofNat y)) := by
  obtain ⟨h', bd', he, hmem, hl, hpt⟩ :=
    gol_tick_spec h game a bd R C hw hb hr hc hm hlen
  refine ⟨h', bd', he, hmem, hl, ?_⟩
  intro x y hx hyR
  have hi : y * C + x < R * C := by
    have h1 : (y + 1) * C = y * C + C := by ring
    have h2 : (y + 1) * C ≤ R * C := Nat.mul_le_mul_right C hyR
    omega
  rw [hpt (y * C + x), if_pos hi]
  simp only [tickCellValue]
  rw [show (y * C + x) % C = x by
      rw [Nat.mul_comm y C, Nat.mul_add_mod]
      exact Nat.mod_eq_of_lt hx,
    show (y * C + x) / C = y by
      rw [Nat.mul_comm y C, Nat.mul_add_div (by omega : 0 < C),
        Nat.div_eq_of_lt hx, Nat.add_zero]]

/-- Witness for C1 at the concrete 5×5 blinker grid. -/
theorem gol_tick_synchronous_witness :
    ∃ h' bd', gol_tick blinkerHeap blinkerGame = (GOL_ERR_OK, h') ∧
      h'.mem 0 = some bd' ∧ bd'.length = 5 * 5 ∧
      ∀ x y : Nat, x < 5 → y < 5 →
        bd'.getD (y * 5 + x) false =
          gol_cellnext (blinkerBoard.getD (y * 5 + x) false)
            (countliveList ((5 : Nat) : Int) ((5 : Nat) : Int) blinkerBoard
              (Int.ofNat x) (Int.ofNat y)) :=
  gol_tick_synchronous blinkerHeap blinkerGame 0 blinkerBoard 5 5
    (fun b hbb => by
      simp only [blinkerHeap] at hbb ⊢
      rw [if_neg (by omega)])
    rfl rfl rfl rfl (by decide)

/-- C8: the board length equals `rows * cols` immediately after a successful
`gol_init`, after a successful `gol_copy` (for both the source and the copy,
which hold the same cell list), and after a successful `gol_tick`. -/
theorem grid_shape_invariant :
    (∀ (h : Heap) (rows cols : Int),
      ∃ g h', gol_init h rows cols = (GOL_ERR_OK, g, h') ∧
        g.rows = rows ∧ g.cols = cols ∧
        ∃ a bd, g.board = some a ∧ h'.mem a = some bd ∧
          bd.length = (rows * cols).toNat) ∧
    (∀ (h : Heap) (src : gameoflife) (a : Nat) (bd : List Bool),
      h.wf → src.board = some a → h.mem a = some bd →
      bd.length = (src.cols * src.rows).toNat →
      ∃ a2, (gol_copy h src).2.1.board = some a2 ∧
        (gol_copy h src).2.1.rows = src.rows ∧
        (gol_copy h src).2.1.cols = src.cols ∧
        (gol_copy h src).2.2.mem a2 = some bd ∧
        (gol_copy h src).2.2.mem a = some bd) ∧
    (∀ (h : Heap) (game : gameoflife) (a : Nat) (bd : List Bool) (R C : Nat),
      h.wf → game.board = some a → game.rows = (R : Int) →
      game.cols = (C : Int) → h.mem a = some bd → bd.length = R * C →
      ∃ h' bd', gol_tick h game = (GOL_ERR_OK, h') ∧
        h'.mem a = some bd' ∧ bd'.length = R * C) := by
  refine ⟨?_, ?_, ?_⟩
  · intro h rows cols
    exact ⟨_, _, rfl, rfl, rfl, h.next, _, rfl, Heap.mem_alloc_self h _, by simp⟩
  · intro h src a bd hw hb hm hlen
    have hane : a ≠ h.next := Nat.ne_of_lt (Heap.lt_next_of_mem h a bd hw hm)
    have hdata : ((h.mem a).getD []).take ((src.cols * src.rows).toNat) = bd := by
      rw [hm, Option.getD_some, ← hlen, List.take_length]
    rw [gol_copy_eq_some h src a hb, hdata]
    exact ⟨h.next, rfl, rfl, rfl, Heap.mem_alloc_self h bd,
      by rw [Heap.mem_alloc_ne h bd a hane]; exact hm⟩
  · intro h game a bd R C hw hb hr hc hm hlen
    obtain ⟨h', bd', he, hmem, hl, _⟩ :=
      gol_tick_spec h game a bd R C hw hb hr hc hm hlen
    exact ⟨h', bd', he, hmem, hl⟩

/-- Witness for C8 at concrete grids. -/
theorem grid_shape_invariant_witness :
    (∃ g h', gol_init emptyHeap 2 3 = (GOL_ERR_OK, g, h') ∧
      g.rows = 2 ∧ g.cols = 3 ∧
      ∃ a bd, g.board = some a ∧ h'.mem a = some bd ∧
        bd.length = ((2 : Int) * 3).toNat) ∧
    (∃ a2, (gol_copy renderHeap renderGame).2.1.board = some a2 ∧
      (gol_copy renderHeap renderGame).2.1.rows = renderGame.rows ∧
      (gol_copy renderHeap renderGame).2.1.cols = renderGame.cols ∧
      (gol_copy renderHeap renderGame).2.2.mem a2 = some renderBoard ∧
      (gol_copy renderHeap renderGame).2.2.mem 0 = some renderBoard) ∧
    (∃ h' bd', gol_tick blinkerHeap blinkerGame = (GOL_ERR_OK, h') ∧
      h'.mem 0 = some bd' ∧ bd'.length = 5 * 5) :=
  ⟨grid_shape_invariant.1 emptyHeap 2 3,
   grid_shape_invariant.2.1 renderHeap renderGame 0 renderBoard
     (fun b hbb => by
       simp only [renderHeap] at hbb ⊢
       rw [if_neg (by omega)])
     rfl rfl (by decide),
   grid_shape_invariant.2.2 blinkerHeap blinkerGame 0 blinkerBoard 5 5
     (fun b hbb => by
       simp only [blinkerHeap] at hbb ⊢
       rw [if_neg (by omega)])
     rfl rfl rfl rfl (by decide)⟩
